import Mathlib

/-!
Verification of the collaborative rich-text editor backend.

The Python sources under `backend/` are shallowly embedded here:

* `backend/editor/models/piece_table.py` — `Piece`, `PieceTable` with
  `insert`, `delete`, `_find_piece_at_position`, `_update_markers`,
  `get_text`.  Python exceptions (IndexError, ValueError, AttributeError)
  are modelled by `Option`: a raised exception is `none`.
* `backend/utils/diff.py` — `DiffCalculator` (`create_diff`, `apply_diff`,
  `_get_lcs`, `_generate_operations`, `_optimize_operations`,
  `_compare_styles`, `_compare_lines`).
* `backend/editor/services/merge_service.py` — `MergeService`.
* `backend/editor/consumers/document_consumer.py` — `handle_operation`.
* `backend/editor/models/formatting.py` — `FormattingManager.update_positions`.

Positions and deltas are Python ints, embedded as `Int`.  Version numbers
are Python floats mutated only by `+= 0.1`; they are embedded as `ℚ`.  All
facts proved below depend on versions only through equality tests on values
where binary floating point and exact arithmetic agree.
-/

set_option maxHeartbeats 1600000

namespace Spec2Proof

/-- A JSON scalar, the payload of style / line attribute maps. -/
inductive AttrVal
  | boolVal (b : Bool)
  | strVal (s : String)
  | intVal (n : Int)
deriving DecidableEq, Repr

/-- A Python dict used as an attribute map: association list; Python dicts
have unique keys, lookup takes the first binding. -/
abbrev AttrMap := List (String × AttrVal)

/-- Python dict merge of two attribute maps (`_merge_style_changes` builds
the merged dict from `style1` then `style2`): the keys of `a` keep their
order but take `b`'s value when `b` also binds them, then the keys of `b`
not bound in `a` follow in `b`'s order. -/
def dictMerge (a b : AttrMap) : AttrMap :=
  (a.map fun kv =>
    match b.lookup kv.1 with
    | some v => (kv.1, v)
    | none => kv)
    ++ b.filter fun kv => (a.lookup kv.1).isNone

/-- The two append-only character buffers of a piece table. -/
inductive BufferType
  | original
  | add
deriving DecidableEq, Repr

/-- `piece_table.Piece`: a slice descriptor into one of the two buffers. -/
structure Piece where
  buffer_type : BufferType
  start : Nat
  length : Nat
  line_start : Bool := false
deriving DecidableEq, Repr

/-- `Piece.split(offset)`: raises ValueError unless `0 < offset < length`
(modelled as `none`); otherwise returns the two halves, the left half
keeping `line_start`, the right half clearing it. -/
def Piece.split (p : Piece) (offset : Nat) : Option (Piece × Piece) :=
  if offset = 0 ∨ p.length ≤ offset then none
  else
    some
      ({ buffer_type := p.buffer_type, start := p.start, length := offset,
         line_start := p.line_start },
       { buffer_type := p.buffer_type, start := p.start + offset,
         length := p.length - offset, line_start := false })

/-- An entry of `PieceTable.styles`.  Normally a `piece_table.StyleRange`
dataclass, whose fields are `piece_index`, `start_offset`, `length`,
`attributes` (constructor `range`).  `DiffCalculator.apply_diff` instead
appends a plain dict with keys `pieceIndex`, `startOffset`, `length`,
`attributes` (constructor `appliedDict`); a dict has no attributes, so any
later `style.piece_index` access on such an entry raises AttributeError. -/
inductive StyleEntry
  | range (piece_index : Nat) (start_offset : Int) (length : Int) (attributes : AttrMap)
  | appliedDict (pieceIndex : Nat) (startOffset : Int) (length : Int) (attributes : AttrMap)
deriving DecidableEq, Repr

/-- An entry of `PieceTable.lines`: a `piece_table.LineMarker` dataclass
(fields `piece_index`, `offset`, `type`, `properties`) or the plain dict
appended by `DiffCalculator.apply_diff` (keys `pieceIndex`, `offset`,
`type`, `properties`). -/
inductive LineEntry
  | marker (piece_index : Nat) (offset : Int) (type : String) (properties : AttrMap)
  | appliedDict (pieceIndex : Nat) (offset : Int) (type : String) (properties : AttrMap)
deriving DecidableEq, Repr

/-- `piece_table.PieceTable`: two append-only buffers, the piece sequence
and the style / line overlays.  `PieceTable.__init__` produces the empty
table, which is the default value of every field. -/
structure PieceTable where
  original_buffer : List Char := []
  add_buffer : List Char := []
  pieces : List Piece := []
  styles : List StyleEntry := []
  lines : List LineEntry := []
deriving DecidableEq, Repr

/-- `PieceTable()` (the constructor): everything empty. -/
def PieceTable.init : PieceTable := {}

/-- Selects between the two buffers. -/
def pieceBuffer (orig addB : List Char) : BufferType → List Char
  | .original => orig
  | .add => addB

/-- The buffer a piece's `buffer_type` refers to. -/
def PieceTable.buffer (t : PieceTable) : BufferType → List Char :=
  pieceBuffer t.original_buffer t.add_buffer

/-- Python slice `buffer[start : start + length]` (clamping, never raising). -/
def sliceBuf (buf : List Char) (p : Piece) : List Char :=
  (buf.drop p.start).take p.length

/-- The text a single piece contributes, given the two buffers. -/
def pieceText (orig addB : List Char) (p : Piece) : List Char :=
  sliceBuf (pieceBuffer orig addB p.buffer_type) p

/-- `PieceTable.get_text`: concatenation of every piece's slice. -/
def PieceTable.get_text (t : PieceTable) : List Char :=
  (t.pieces.map (pieceText t.original_buffer t.add_buffer)).flatten

/-- `PieceTable._find_piece_at_position`: walks the pieces keeping the
running start position; returns `(index, intra-piece offset)` for the piece
containing `position`, and `(len(pieces), 0)` when no piece contains it
(position at or past the end of the document, or negative). -/
def find_piece_at_position : List Piece → Int → Nat × Nat
  | [], _ => (0, 0)
  | p :: ps, position =>
    if 0 ≤ position ∧ position < (p.length : Int) then (0, position.toNat)
    else
      ((find_piece_at_position ps (position - (p.length : Int))).1 + 1,
       (find_piece_at_position ps (position - (p.length : Int))).2)

/-- Python `list.insert(i, x)`: inserts before index `i`, clamping `i` to
the list length. -/
def pyListInsert (l : List α) (i : Nat) (x : α) : List α :=
  l.take i ++ x :: l.drop i

/-- Python `del l[a:b]`: removes the elements whose index lies in `[a, b)`
(no element when `a ≥ b`). -/
def pyDelRange (l : List α) (a b : Nat) : List α :=
  l.take a ++ l.drop (max a b)

/-- One step of `PieceTable._update_markers` on a style entry: a
`StyleRange` with `piece_index > piece_index_of_edit` gets
`start_offset += delta`, others are untouched; an `appliedDict` entry
raises AttributeError on the `style.piece_index` access. -/
def StyleEntry.updatePosition (piece_index : Nat) (delta : Int) :
    StyleEntry → Option StyleEntry
  | .range pi so len attrs =>
      some (if piece_index < pi then .range pi (so + delta) len attrs
            else .range pi so len attrs)
  | .appliedDict .. =>
      none

/-- One step of `PieceTable._update_markers` on a line entry. -/
def LineEntry.updatePosition (piece_index : Nat) (delta : Int) :
    LineEntry → Option LineEntry
  | .marker pi off ty props =>
      some (if piece_index < pi then .marker pi (off + delta) ty props
            else .marker pi off ty props)
  | .appliedDict .. =>
      none

/-- The styles loop of `PieceTable._update_markers(piece_index, delta)`. -/
def update_markers_styles : List StyleEntry → Nat → Int → Option (List StyleEntry)
  | [], _, _ => some []
  | s :: rest, piece_index, delta =>
    match s.updatePosition piece_index delta with
    | none => none
    | some s2 =>
      match update_markers_styles rest piece_index delta with
      | none => none
      | some rest2 => some (s2 :: rest2)

/-- The lines loop of `PieceTable._update_markers(piece_index, delta)`. -/
def update_markers_lines : List LineEntry → Nat → Int → Option (List LineEntry)
  | [], _, _ => some []
  | l :: rest, piece_index, delta =>
    match l.updatePosition piece_index delta with
    | none => none
    | some l2 =>
      match update_markers_lines rest piece_index delta with
      | none => none
      | some rest2 => some (l2 :: rest2)

/-- `PieceTable.insert(position, text)`:
empty text returns immediately; otherwise the text is appended to the add
buffer and a new piece is created for it.  When the found intra-piece
offset is positive the containing piece is split and `[left, new, right]`
spliced in; otherwise the new piece is inserted before the found index.
Finally `_update_markers(piece_index, len(text))` runs.

`insertNewPieces` is the piece-list surgery of `PieceTable.insert`:
reading `pieces[piece_index]` (IndexError when out of range), splitting it
when the offset is positive and splicing `[left, new, right]`, otherwise
inserting the new piece before the found index. -/
def insertNewPieces (pieces : List Piece) (fp : Nat × Nat) (new_piece : Piece) :
    Option (List Piece) :=
  if 0 < fp.2 then
    match pieces[fp.1]? with
    | none => none
    | some curr_piece =>
      match curr_piece.split fp.2 with
      | none => none
      | some fs =>
        some (pyListInsert (pyListInsert (pieces.set fp.1 fs.1)
          (fp.1 + 1) new_piece) (fp.1 + 2) fs.2)
  else some (pyListInsert pieces fp.1 new_piece)

def PieceTable.insert (t : PieceTable) (position : Int) (text : List Char) :
    Option PieceTable :=
  if text = [] then some t
  else
    let fp := find_piece_at_position t.pieces position
    let new_piece : Piece :=
      { buffer_type := .add, start := t.add_buffer.length, length := text.length }
    match insertNewPieces t.pieces fp new_piece,
          update_markers_styles t.styles fp.1 (text.length : Int),
          update_markers_lines t.lines fp.1 (text.length : Int) with
    | some new_pieces, some new_styles, some new_lines =>
      some { t with add_buffer := t.add_buffer ++ text, pieces := new_pieces,
                    styles := new_styles, lines := new_lines }
    | _, _, _ => none

/-- `PieceTable.delete(position, length)`:
non-positive length returns immediately.  Otherwise the start and end
`(index, offset)` pairs are looked up, the start piece is truncated to its
left part when the start offset is positive (the index advancing by one),
then — on the already mutated list — `pieces[end_index]` is read (an
IndexError when the end position fell past the last piece), the end piece
is replaced by its right part when `end_offset < its length` (a ValueError
inside `split` when `end_offset = 0`), otherwise the end index advances,
the slice `[start_index, end_index)` is deleted, and
`_update_markers(start_index, -length)` runs.

`deleteStep1` is the start-piece handling of `PieceTable.delete`. -/
def deleteStep1 (pieces : List Piece) (s : Nat × Nat) :
    Option (List Piece × Nat) :=
  if 0 < s.2 then
    match pieces[s.1]? with
    | none => none
    | some curr_piece =>
      match curr_piece.split s.2 with
      | none => none
      | some fs => some (pieces.set s.1 fs.1, s.1 + 1)
  else some (pieces, s.1)

/-- The end-piece handling of `PieceTable.delete`, running on the list
already mutated by `deleteStep1`. -/
def deleteStep2 (pieces1 : List Piece) (e : Nat × Nat) :
    Option (List Piece × Nat) :=
  match pieces1[e.1]? with
  | none => none
  | some end_piece =>
    if e.2 < end_piece.length then
      match end_piece.split e.2 with
      | none => none
      | some fs => some (pieces1.set e.1 fs.2, e.1)
    else some (pieces1, e.1 + 1)

def PieceTable.delete (t : PieceTable) (position : Int) (length : Int) :
    Option PieceTable :=
  if length ≤ 0 then some t
  else
    let s := find_piece_at_position t.pieces position
    let e := find_piece_at_position t.pieces (position + length)
    match deleteStep1 t.pieces s with
    | none => none
    | some step1 =>
      match deleteStep2 step1.1 e with
      | none => none
      | some step2 =>
        match update_markers_styles t.styles step1.2 (-length),
              update_markers_lines t.lines step1.2 (-length) with
        | some new_styles, some new_lines =>
          some { t with pieces := pyDelRange step2.1 step1.2 step2.2,
                        styles := new_styles, lines := new_lines }
        | _, _ => none

/-! ## The diff engine (`backend/utils/diff.py`) -/

/-- A Python operation dict as built by `DiffCalculator` and
`MergeService._change_to_diff`.  Each optional field models the presence or
absence of the corresponding dict key (`none` = key absent; reading an
absent key with `d[k]` raises KeyError, modelled as `none` at the use
site). -/
structure DiffDict where
  type : String
  position : Int
  content : Option (List Char) := none
  length : Option Int := none
  attributes : Option AttrMap := none
  lineType : Option String := none
  properties : Option AttrMap := none
deriving DecidableEq, Repr

/-- One row of the `_get_lcs` DP table from the previous row.  At column
`j ≥ 1` (character `tj`): `prev` starts at `dp[i-1][j-1]`, its tail's head
is `dp[i-1][j]`, and `left` carries `dp[i][j-1]`. -/
def lcsRowAux (c : Char) : List Char → List Nat → Nat → List Nat
  | [], _, _ => []
  | tj :: ts, prev, left =>
    match prev with
    | [] => []
    | pjm1 :: prest =>
      let cur := if c = tj then pjm1 + 1 else max (prest.headD 0) left
      cur :: lcsRowAux c ts prest cur

/-- Row `i ≥ 1` of the DP table (column 0 is 0). -/
def lcsRow (c : Char) (t : List Char) (prev : List Nat) : List Nat :=
  0 :: lcsRowAux c t prev 0

/-- Rows `1 .. m` of the DP table. -/
def lcsTableRows (t : List Char) : List Char → List Nat → List (List Nat)
  | [], _ => []
  | c :: cs, prev =>
    let r := lcsRow c t prev
    r :: lcsTableRows t cs r

/-- The full `(m+1) × (n+1)` DP table `dp` of `_get_lcs`:
`dp[i][j]` is the LCS length of the first `i` characters of `s` and the
first `j` characters of `t`, filled row by row exactly as the Python
nested loops do. -/
def lcsTable (s t : List Char) : List (List Nat) :=
  let row0 := List.replicate (t.length + 1) 0
  row0 :: lcsTableRows t s row0

/-- Table access `dp[i][j]`. -/
def lcsDp (s t : List Char) (i j : Nat) : Nat :=
  ((lcsTable s t).getD i []).getD j 0

/-- The backtracking `while i > 0 and j > 0` loop of `_get_lcs`.  Each pass
decreases `i + j` by at least one, so running it with fuel
`s.length + t.length` from `(s.length, t.length)` reproduces the loop
exactly; the fuel is never exhausted first. -/
def lcsBacktrack (s t : List Char) : Nat → Nat → Nat → List (Nat × Nat)
  | fuel + 1, i + 1, j + 1 =>
    if s.getD i ' ' = t.getD j ' ' then (i, j) :: lcsBacktrack s t fuel i j
    else if lcsDp s t i (j + 1) > lcsDp s t (i + 1) j then
      lcsBacktrack s t fuel i (j + 1)
    else
      lcsBacktrack s t fuel (i + 1) j
  | _, _, _ => []

/-- `DiffCalculator._get_lcs`: DP table plus backtracking, reversed into
left-to-right order of matched index pairs. -/
def get_lcs (s t : List Char) : List (Nat × Nat) :=
  (lcsBacktrack s t (s.length + t.length) s.length t.length).reverse

/-- The `while source_pos < x` delete-emitting loop of
`_generate_operations`: one `delete` op of length 1 at each source index in
`[sp, ls)`. -/
def deleteOpsRange (sp ls : Nat) : List DiffDict :=
  (List.range' sp (ls - sp)).map fun (p : Nat) =>
    { type := "delete", position := (p : Int), length := some 1 }

/-- The `while target_pos < x` insert-emitting loop: one single-character
`insert` op at each target index in `[tp, lt)`. -/
def insertOpsRange (target : List Char) (tp lt : Nat) : List DiffDict :=
  (List.range' tp (lt - tp)).map fun (p : Nat) =>
    { type := "insert", position := (p : Int), content := some [target.getD p ' '] }

/-- The main loop of `_generate_operations` over the LCS pairs, carrying
`source_pos` and `target_pos`; after each pair both counters move to one
past the pair (the Python `while` loops leave them at `max` of the old
value and the pair component, then both are incremented). -/
def generateOpsAux (source target : List Char) :
    List (Nat × Nat) → Nat → Nat → List DiffDict
  | [], source_pos, target_pos =>
    deleteOpsRange source_pos source.length ++
      insertOpsRange target target_pos target.length
  | (ls, lt) :: rest, source_pos, target_pos =>
    deleteOpsRange source_pos ls ++ insertOpsRange target target_pos lt ++
      generateOpsAux source target rest (max source_pos ls + 1) (max target_pos lt + 1)

/-- `current_op.get('length', len(current_op.get('content', '')))`. -/
def optimizeExtent (d : DiffDict) : Int :=
  match d.length with
  | some l => l
  | none => ((d.content.getD []).length : Int)

/-- The folding loop of `_optimize_operations`; `cur` is `current_op`.
Adjacent same-type ops whose positions abut are merged (`length` summed
for deletes, `content` concatenated for inserts; generated delete ops
always carry `length` and generated insert ops always carry `content`, so
the `getD` defaults are never used on the merged field). -/
def optimizeAux : DiffDict → List DiffDict → List DiffDict
  | cur, [] => [cur]
  | cur, op :: rest =>
    if op.type = cur.type ∧ op.position = cur.position + optimizeExtent cur then
      if op.type = "delete" then
        optimizeAux { cur with length := some (cur.length.getD 0 + op.length.getD 0) } rest
      else
        optimizeAux { cur with content := some (cur.content.getD [] ++ op.content.getD []) } rest
    else
      cur :: optimizeAux op rest

/-- `DiffCalculator._optimize_operations`. -/
def optimize_operations : List DiffDict → List DiffDict
  | [] => []
  | op :: rest => optimizeAux op rest

/-- `DiffCalculator._generate_operations` (emission plus optimization). -/
def generate_operations (source target : List Char) (lcs : List (Nat × Nat)) :
    List DiffDict :=
  optimize_operations (generateOpsAux source target lcs 0 0)

/-- `DiffCalculator._compare_styles`: reads `pieceIndex` / `offsetInPiece`
attributes from entries of `PieceTable.styles`, but those entries are
`piece_table.StyleRange` dataclasses with fields `piece_index` /
`start_offset` (or plain dicts); the first entry reached in either loop
raises AttributeError.  The function returns `[]` exactly when both styles
lists are empty, and raises otherwise. -/
def compare_styles (source target : PieceTable) : Option (List DiffDict) :=
  match target.styles, source.styles with
  | [], [] => some []
  | _, _ => none

/-- `DiffCalculator._compare_lines`: same shape as `_compare_styles`, and
the same `offsetInPiece` attribute mismatch against `piece_table.LineMarker`
(field `offset`): `[]` when both lines lists are empty, AttributeError
otherwise. -/
def compare_lines (source target : PieceTable) : Option (List DiffDict) :=
  match target.lines, source.lines with
  | [], [] => some []
  | _, _ => none

/-- `DiffCalculator.create_diff` / module-level `create_diff`: text LCS
operations, then style comparison, then line comparison. -/
def create_diff (source target : PieceTable) : Option (List DiffDict) :=
  let source_chars := source.get_text
  let target_chars := target.get_text
  let operations :=
    generate_operations source_chars target_chars (get_lcs source_chars target_chars)
  match compare_styles source target, compare_lines source target with
  | some style_ops, some line_ops => some (operations ++ style_ops ++ line_ops)
  | _, _ => none

/-- The loop of `DiffCalculator.apply_diff`, carrying `position_offset`.
`insert` / `delete` ops go through the PieceTable and adjust the offset;
`style` / `line` ops append a plain dict (see `StyleEntry.appliedDict`);
unknown types do nothing. -/
def apply_diff_from (t : PieceTable) (position_offset : Int) :
    List DiffDict → Option PieceTable
  | [] => some t
  | op :: rest =>
    let position := op.position + position_offset
    if op.type = "insert" then
      match op.content with
      | none => none
      | some c =>
        match t.insert position c with
        | none => none
        | some t2 => apply_diff_from t2 (position_offset + (c.length : Int)) rest
    else if op.type = "delete" then
      match op.length with
      | none => none
      | some l =>
        match t.delete position l with
        | none => none
        | some t2 => apply_diff_from t2 (position_offset - l) rest
    else if op.type = "style" then
      match op.length, op.attributes with
      | some l, some attrs =>
        apply_diff_from
          { t with styles := t.styles ++
              [.appliedDict (find_piece_at_position t.pieces position).1 position l attrs] }
          position_offset rest
      | _, _ => none
    else if op.type = "line" then
      match op.lineType, op.properties with
      | some lt, some props =>
        apply_diff_from
          { t with lines := t.lines ++
              [.appliedDict (find_piece_at_position t.pieces position).1 position lt props] }
          position_offset rest
      | _, _ => none
    else
      apply_diff_from t position_offset rest

/-- `DiffCalculator.apply_diff` / module-level `apply_diff`: left-to-right
walk with `position_offset = 0` initially. -/
def apply_diff (t : PieceTable) (ops : List DiffDict) : Option PieceTable :=
  apply_diff_from t 0 ops

/-! ## The merge service (`backend/editor/services/merge_service.py`) and
the data model (`backend/editor/models/document.py`).

Version numbers are Python floats; embedded as `ℚ`.  A document's `content`
JSON field and its deserialization `get_piece_table` /
`PieceTable.from_json` round-trip, so snapshots are stored here directly as
`PieceTable` values. -/

/-- `models.Change`: a persisted client change record. -/
structure Change where
  source_version : ℚ
  operation_type : String
  position : Int
  content : Option (List Char) := none
  attributes : Option AttrMap := none
deriving DecidableEq, Repr

/-- `models.DocumentVersion`: a stored snapshot tagged with its version. -/
structure DocumentVersion where
  version : ℚ
  content : PieceTable
deriving DecidableEq, Repr

/-- `models.Document`: current version, current snapshot, and the stored
version records (`document.versions`). -/
structure Document where
  current_version : ℚ
  content : PieceTable
  versions : List DocumentVersion
deriving DecidableEq, Repr

/-- `document.versions.filter(version=v).first()`: `(document, version)` is
unique, so at most one record matches and list order is irrelevant. -/
def Document.findVersion (document : Document) (v : ℚ) : Option DocumentVersion :=
  (document.versions.filter fun dv => dv.version = v).head?

/-- `MergeService._change_to_diff`: the dict
`{'type': ..., 'position': ..., 'content': ..., 'attributes': ...}` (note:
no `length` key). -/
def change_to_diff (change : Change) : DiffDict :=
  { type := change.operation_type, position := change.position,
    content := change.content, attributes := change.attributes }

/-- `MergeService._changes_overlap`: interval intersection on
`[position, position + extent)`, where the extent is `len(content)` for an
insert and `.get('length', 0)` otherwise. -/
def changes_overlap (diff1 diff2 : DiffDict) : Bool :=
  let pos1 := diff1.position
  let pos2 := diff2.position
  let len1 : Int :=
    if diff1.type = "insert" then ((diff1.content.getD []).length : Int)
    else diff1.length.getD 0
  let len2 : Int :=
    if diff2.type = "insert" then ((diff2.content.getD []).length : Int)
    else diff2.length.getD 0
  ¬(pos1 + len1 ≤ pos2 ∨ pos2 + len2 ≤ pos1)

/-- The result of `_merge_diffs`: a single operation dict or the
`{'type': 'compound', 'operations': [...]}` dict built by
`_combine_non_overlapping_diffs`. -/
inductive MergedDiff
  | single (op : DiffDict)
  | compound (operations : List DiffDict)
deriving DecidableEq, Repr

/-- `MergeService._combine_non_overlapping_diffs`: stable two-element sort
by position, then the later op's position is adjusted by the earlier op's
extent (`+len(content)` after an insert, `-length` after a delete); both
are emitted as a `compound` op.  The earlier op's `content` / `length` key
is present on every op this code is reached with. -/
def combine_non_overlapping_diffs (diff1 diff2 : DiffDict) : MergedDiff :=
  let sorted := if diff2.position < diff1.position then (diff2, diff1) else (diff1, diff2)
  let earlier := sorted.1
  let later := sorted.2
  let later2 :=
    if earlier.type = "insert" then
      { later with position := later.position + ((earlier.content.getD []).length : Int) }
    else if earlier.type = "delete" then
      { later with position := later.position - earlier.length.getD 0 }
    else later
  .compound [earlier, later2]

/-- `MergeService._merge_style_changes`: merged attribute dict is
`{**style1.attributes, **style2.attributes}` (the second argument — the
client change — wins on shared keys); `position` and `length` come from
`style1` (the server/current diff).  `style1['length']` raises KeyError
when the key is absent. -/
def merge_style_changes (style1 style2 : DiffDict) : Option DiffDict :=
  let merged_attributes := dictMerge (style1.attributes.getD []) (style2.attributes.getD [])
  match style1.length with
  | none => none
  | some len =>
    some { type := "style", position := style1.position, length := some len,
           attributes := some merged_attributes }

/-- `MergeService._resolve_conflict`: both `style` → merge the style
changes; otherwise last-writer-wins, the client change is returned. -/
def resolve_conflict (current_diff change_diff : DiffDict) : Option DiffDict :=
  if current_diff.type = "style" ∧ change_diff.type = "style" then
    merge_style_changes current_diff change_diff
  else
    some change_diff

/-- `MergeService._merge_diffs(current_diff, change_diff)`.  In
`apply_change` the first argument is the value of
`create_diff(base_table, current_table)` — a Python LIST of operation
dicts, not a dict.  `_merge_diffs` immediately calls
`_changes_overlap(current_diff, change_diff)`, whose first statement
`pos1 = diff1['position']` indexes that list with a string and raises
`TypeError: list indices must be integers or slices, not str`.  The
exception is raised before any other work; modelled as `none` (an uncaught
exception). -/
def merge_diffs (current_diff : List DiffDict) (change_diff : DiffDict) :
    Option MergedDiff :=
  none

/-- `MergeService._apply_style`: the function body references the name
`StyleRange`, but `merge_service.py` only imports
`Document, Change, PieceTable` from `..models`, so evaluating the
constructor call raises NameError unconditionally. -/
def apply_style (piece_table : PieceTable) (style_op : DiffDict) :
    Option PieceTable :=
  none

/-- `MergeService._apply_single_operation`: dispatch on the op type;
`insert` / `delete` go through the PieceTable (KeyError when the needed
dict key is absent), `style` goes to `_apply_style`, any other type falls
through leaving the table unchanged. -/
def apply_single_operation (piece_table : PieceTable) (operation : DiffDict) :
    Option PieceTable :=
  if operation.type = "insert" then
    match operation.content with
    | none => none
    | some c => piece_table.insert operation.position c
  else if operation.type = "delete" then
    match operation.length with
    | none => none
    | some l => piece_table.delete operation.position l
  else if operation.type = "style" then
    apply_style piece_table operation
  else
    some piece_table

/-- `MergeService._apply_merged_changes`: applies the merged op (or each op
of a compound in order) to the document's current piece table, then bumps
`current_version` by 0.1, stores the new content and appends a new
`DocumentVersion` record. -/
def apply_merged_changes (document : Document) (merged_diff : MergedDiff) :
    Option Document :=
  let applied : Option PieceTable :=
    match merged_diff with
    | .compound operations =>
      operations.foldlM apply_single_operation document.content
    | .single op => apply_single_operation document.content op
  match applied with
  | none => none
  | some piece_table =>
    let new_version := document.current_version + 1 / 10
    some { current_version := new_version, content := piece_table,
           versions := document.versions ++ [{ version := new_version, content := piece_table }] }

/-- `MergeService.apply_change`: returns `False` when the change's
`source_version` has no stored `DocumentVersion`; otherwise diffs the base
snapshot against the current one and merges in the client change.  Only
`_apply_merged_changes` runs inside `try`: an exception there yields
`False`, while exceptions raised by `create_diff` or `_merge_diffs`
propagate to the caller (`none`). -/
def apply_change (document : Document) (change : Change) :
    Option (Bool × Document) :=
  match document.findVersion change.source_version with
  | none => some (false, document)
  | some base_version =>
    match create_diff base_version.content document.content with
    | none => none
    | some current_diff =>
      match merge_diffs current_diff (change_to_diff change) with
      | none => none
      | some merged_diff =>
        match apply_merged_changes document merged_diff with
        | none => some (false, document)
        | some document2 => some (true, document2)

/-! ## The websocket consumer (`backend/editor/consumers/document_consumer.py`) -/

/-- The payload of an inbound `operation` message:
`sourceVersion` plus the nested `operation` dict. -/
structure OperationData where
  sourceVersion : ℚ
  operation_type : String
  position : Int
  content : Option (List Char) := none
  attributes : Option AttrMap := none
deriving DecidableEq, Repr

/-- A message sent with `self.send` to the requesting subscriber alone. -/
inductive OutboundMessage
  | sync_required (currentVersion : ℚ)
deriving DecidableEq, Repr

/-- A message sent with `group_send` to the document's room group. -/
inductive GroupMessage
  | document_change (change : OperationData) (user_id : String) (new_version : ℚ)
deriving DecidableEq, Repr

/-- The observable outcome of one `handle_operation` call: direct replies
to the sender, group broadcasts, `Change` rows created, and the document
state afterwards. -/
structure HandlerOutcome where
  replies : List OutboundMessage
  broadcasts : List GroupMessage
  recorded : List Change
  document : Document
deriving DecidableEq, Repr

/-- `DocumentConsumer.handle_operation`: a stale `sourceVersion` gets a
`sync_required{currentVersion}` reply to the sender only and nothing else
happens; otherwise a `Change` row is created, `MergeService.apply_change`
runs (its uncaught exceptions abort the handler: `none`), and on success a
`document_change` event is broadcast to the room group. -/
def handle_operation (user_id : String) (document : Document)
    (data : OperationData) : Option HandlerOutcome :=
  if data.sourceVersion ≠ document.current_version then
    some { replies := [.sync_required document.current_version], broadcasts := [],
           recorded := [], document := document }
  else
    let change : Change :=
      { source_version := data.sourceVersion, operation_type := data.operation_type,
        position := data.position, content := data.content,
        attributes := data.attributes }
    match apply_change document change with
    | none => none
    | some (success, document2) =>
      if success then
        some { replies := [],
               broadcasts := [.document_change data user_id document2.current_version],
               recorded := [change], document := document2 }
      else
        some { replies := [], broadcasts := [], recorded := [change],
               document := document2 }

/-! ## The formatting overlay (`backend/editor/models/formatting.py`),
whose `update_positions` is the overlay-update rule the specification
prescribes for edits (but which `PieceTable.insert` never calls — it calls
its own `_update_markers`). -/

/-- `formatting.StyleRange` (note the camelCase field names, distinct from
`piece_table.StyleRange`). -/
structure FMStyleRange where
  pieceIndex : Nat
  offsetInPiece : Int
  length : Int
  priority : Int
  styles : AttrMap
deriving DecidableEq, Repr

/-- `formatting.LineMarker`. -/
structure FMLineMarker where
  pieceIndex : Nat
  offsetInPiece : Int
  type : String
  properties : AttrMap
deriving DecidableEq, Repr

/-- `formatting.BlockDescriptor`. -/
structure FMBlockDescriptor where
  startPieceIndex : Nat
  startOffset : Int
  endPieceIndex : Nat
  endOffset : Int
  type : String
  properties : AttrMap
deriving DecidableEq, Repr

/-- `formatting.FormattingManager` state. -/
structure FormattingManager where
  styles : List FMStyleRange := []
  lines : List FMLineMarker := []
  blocks : List FMBlockDescriptor := []
deriving DecidableEq, Repr

/-- `FormattingManager.update_positions(piece_index, offset, delta)`:
every style / line anchor in the edited piece whose offset is at least
`offset` moves by `delta`; block endpoints move independently under the
same rule. -/
def FormattingManager.update_positions (m : FormattingManager)
    (piece_index : Nat) (offset delta : Int) : FormattingManager :=
  { styles := m.styles.map fun s =>
      if s.pieceIndex = piece_index ∧ offset ≤ s.offsetInPiece then
        { s with offsetInPiece := s.offsetInPiece + delta }
      else s,
    lines := m.lines.map fun l =>
      if l.pieceIndex = piece_index ∧ offset ≤ l.offsetInPiece then
        { l with offsetInPiece := l.offsetInPiece + delta }
      else l,
    blocks := m.blocks.map fun b =>
      let b1 :=
        if b.startPieceIndex = piece_index ∧ offset ≤ b.startOffset then
          { b with startOffset := b.startOffset + delta }
        else b
      if b1.endPieceIndex = piece_index ∧ offset ≤ b1.endOffset then
        { b1 with endOffset := b1.endOffset + delta }
      else b1 }

/-! ## Well-formedness of piece tables and its preservation -/

/-- Total length of a list of pieces. -/
def sumLen (l : List Piece) : Nat := (l.map Piece.length).sum

/-- A well-formed piece: positive length, slice inside its buffer. -/
def Piece.Ok (orig addB : List Char) (p : Piece) : Prop :=
  0 < p.length ∧ p.start + p.length ≤ (pieceBuffer orig addB p.buffer_type).length

/-- A well-formed piece list over the table's two buffers. -/
def PieceTable.Ok (t : PieceTable) : Prop :=
  ∀ p ∈ t.pieces, Piece.Ok t.original_buffer t.add_buffer p

/-- Whether a styles entry is a `StyleRange` dataclass. -/
def StyleEntry.isRange : StyleEntry → Bool
  | .range .. => true
  | .appliedDict .. => false

/-- Whether a lines entry is a `LineMarker` dataclass. -/
def LineEntry.isMarker : LineEntry → Bool
  | .marker .. => true
  | .appliedDict .. => false

/-- A piece table whose pieces are in bounds and whose overlays hold only
dataclass entries (no dicts smuggled in by `apply_diff`). -/
def PieceTable.Wf (t : PieceTable) : Prop :=
  t.Ok ∧ (∀ s ∈ t.styles, s.isRange = true) ∧ (∀ x ∈ t.lines, x.isMarker = true)

instance (orig addB : List Char) (p : Piece) : Decidable (Piece.Ok orig addB p) := by
  unfold Piece.Ok
  infer_instance

instance (t : PieceTable) : Decidable t.Ok := by
  unfold PieceTable.Ok
  infer_instance

instance (t : PieceTable) : Decidable t.Wf := by
  unfold PieceTable.Wf
  infer_instance

/-- The piece tables reachable from the empty table (`PieceTable()`) by
successful (non-raising) inserts and deletes. -/
inductive Reachable : PieceTable → Prop
  | init : Reachable PieceTable.init
  | insert {t t2 : PieceTable} (pos : Int) (text : List Char) :
      Reachable t → t.insert pos text = some t2 → Reachable t2
  | delete {t t2 : PieceTable} (pos len : Int) :
      Reachable t → t.delete pos len = some t2 → Reachable t2

/-! ## Concrete document states used to evaluate the code -/

/-- A table holding `"hello"` as a single original-buffer piece. -/
def helloT : PieceTable :=
  { original_buffer := "hello".toList,
    pieces := [{ buffer_type := .original, start := 0, length := 5 }] }

/-- A table holding `"ab"` as a single original-buffer piece. -/
def abT : PieceTable :=
  { original_buffer := "ab".toList,
    pieces := [{ buffer_type := .original, start := 0, length := 2 }] }

/-- A table holding `"abc"` as a single original-buffer piece. -/
def abcT : PieceTable :=
  { original_buffer := "abc".toList,
    pieces := [{ buffer_type := .original, start := 0, length := 3 }] }

/-- A table holding `"ac"` as a single original-buffer piece. -/
def acT : PieceTable :=
  { original_buffer := "ac".toList,
    pieces := [{ buffer_type := .original, start := 0, length := 2 }] }

/-- The result of inserting `"hi"` into the empty table. -/
def hiT : PieceTable :=
  { add_buffer := "hi".toList,
    pieces := [{ buffer_type := .add, start := 0, length := 2 }] }

/-- Text `"abcd"` split into two pieces `"ab"` / `"cd"`, with a style
anchor at (piece 0, offset 1) and one at (piece 1, offset 0). -/
def styledT : PieceTable :=
  { original_buffer := "abcd".toList,
    pieces := [{ buffer_type := .original, start := 0, length := 2 },
               { buffer_type := .original, start := 2, length := 2 }],
    styles := [.range 0 1 1 [], .range 1 0 2 []] }

/-- Base snapshot of the concurrent-insert scenario: text `"abcdef"`. -/
def baseT : PieceTable :=
  { original_buffer := "abcdef".toList,
    pieces := [{ buffer_type := .original, start := 0, length := 6 }] }

/-- Current snapshot of the concurrent-insert scenario: `"aXbcdef"`, the
base after the server applied insert `"X"` at position 1. -/
def curT : PieceTable :=
  { original_buffer := "abcdef".toList, add_buffer := "X".toList,
    pieces := [{ buffer_type := .original, start := 0, length := 1 },
               { buffer_type := .add, start := 0, length := 1 },
               { buffer_type := .original, start := 1, length := 5 }] }

/-- The document of the concurrent-insert scenario.  The spec's versions
2.0 / 2.1 are written 2 / 3: on the path exercised only equality of
version numbers matters, never their arithmetic. -/
def docC2 : Document :=
  { current_version := 3, content := curT,
    versions := [{ version := 2, content := baseT },
                 { version := 3, content := curT }] }

/-- The client change of the concurrent-insert scenario: insert `"Y"` at
position 4, authored against the base version. -/
def changeC2 : Change :=
  { source_version := 2, operation_type := "insert", position := 4,
    content := some ("Y".toList) }

/-- The server-side (current) style diff of the style-merge scenario:
`underline` on `[2, 5)`. -/
def serverStyleDiff : DiffDict :=
  { type := "style", position := 2, length := some 3,
    attributes := some [("underline", .boolVal true)] }

/-- The client style diff of the style-merge scenario:
`bold := false`, `italic := true` on `[2, 5)`. -/
def clientStyleDiff : DiffDict :=
  { type := "style", position := 2, length := some 3,
    attributes := some [("bold", .boolVal false), ("italic", .boolVal true)] }

/-- A document at version 2 with one stored version record. -/
def docW : Document :=
  { current_version := 2, content := PieceTable.init,
    versions := [{ version := 2, content := PieceTable.init }] }

/-- An operation message authored at version 1 (stale for `docW`). -/
def dataStale : OperationData :=
  { sourceVersion := 1, operation_type := "insert", position := 0,
    content := some ("h".toList) }

/-- A change whose source version 1 has no stored record in `docW`. -/
def changeUnknown : Change :=
  { source_version := 1, operation_type := "insert", position := 0,
    content := some ("h".toList) }

theorem Piece.Ok.mono_add {orig addB ext : List Char} {p : Piece}
    (h : Piece.Ok orig addB p) : Piece.Ok orig (addB ++ ext) p := by
  obtain ⟨h1, h2⟩ := h
  refine ⟨h1, ?_⟩
  cases hb : p.buffer_type <;> simp only [pieceBuffer, List.length_append] <;>
    rw [hb] at h2 <;> simp only [pieceBuffer] at h2 <;> omega

theorem mem_pyListInsert {α : Type} {l : List α} {i : Nat} {x a : α}
    (h : a ∈ pyListInsert l i x) : a = x ∨ a ∈ l := by
  simp only [pyListInsert, List.mem_append, List.mem_cons] at h
  rcases h with h | h | h
  · exact Or.inr (List.take_subset _ _ h)
  · exact Or.inl h
  · exact Or.inr (List.drop_subset _ _ h)

theorem mem_pyDelRange {α : Type} {l : List α} {a b : Nat} {x : α}
    (h : x ∈ pyDelRange l a b) : x ∈ l := by
  simp only [pyDelRange, List.mem_append] at h
  rcases h with h | h
  · exact List.take_subset _ _ h
  · exact List.drop_subset _ _ h

theorem Piece.split_eq_some {p : Piece} {o : Nat} {fs : Piece × Piece}
    (h : p.split o = some fs) :
    0 < o ∧ o < p.length ∧
      fs.1 = { buffer_type := p.buffer_type, start := p.start, length := o,
               line_start := p.line_start } ∧
      fs.2 = { buffer_type := p.buffer_type, start := p.start + o,
               length := p.length - o, line_start := false } := by
  unfold Piece.split at h
  split at h
  · exact absurd h (by simp)
  · rename_i hc
    push_neg at hc
    cases h
    exact ⟨Nat.pos_of_ne_zero hc.1, by omega, rfl, rfl⟩

theorem Piece.split_ok {orig addB : List Char} {p : Piece} {o : Nat}
    {fs : Piece × Piece} (hp : Piece.Ok orig addB p) (h : p.split o = some fs) :
    Piece.Ok orig addB fs.1 ∧ Piece.Ok orig addB fs.2 := by
  obtain ⟨ho, holt, h1, h2⟩ := Piece.split_eq_some h
  obtain ⟨hl, hb⟩ := hp
  constructor
  · rw [h1]
    refine ⟨ho, ?_⟩
    show p.start + o ≤ (pieceBuffer orig addB p.buffer_type).length
    omega
  · rw [h2]
    refine ⟨?_, ?_⟩
    · show 0 < p.length - o
      omega
    · show p.start + o + (p.length - o) ≤ (pieceBuffer orig addB p.buffer_type).length
      omega

theorem mem_of_getElem? {α : Type} {l : List α} {i : Nat} {a : α}
    (h : l[i]? = some a) : a ∈ l := by
  obtain ⟨hlt, hEq⟩ := List.getElem?_eq_some.mp h
  exact hEq ▸ List.getElem_mem hlt

theorem insertNewPieces_ok {orig addB : List Char} {pieces : List Piece}
    {fp : Nat × Nat} {np : Piece} {ps2 : List Piece}
    (hps : ∀ p ∈ pieces, Piece.Ok orig addB p) (hnp : Piece.Ok orig addB np)
    (h : insertNewPieces pieces fp np = some ps2) :
    ∀ p ∈ ps2, Piece.Ok orig addB p := by
  unfold insertNewPieces at h
  split at h
  · split at h
    · exact absurd h (by simp)
    · rename_i curr hget
      split at h
      · exact absurd h (by simp)
      · rename_i fs hsplit
        cases h
        have hcurr : Piece.Ok orig addB curr := hps curr (mem_of_getElem? hget)
        obtain ⟨hfs1, hfs2⟩ := Piece.split_ok hcurr hsplit
        intro p hp
        rcases mem_pyListInsert hp with rfl | hp
        · exact hfs2
        rcases mem_pyListInsert hp with rfl | hp
        · exact hnp
        rcases List.mem_or_eq_of_mem_set hp with hp | rfl
        · exact hps p hp
        · exact hfs1
  · cases h
    intro p hp
    rcases mem_pyListInsert hp with rfl | hp
    · exact hnp
    · exact hps p hp

theorem deleteStep1_ok {orig addB : List Char} {pieces : List Piece}
    {s : Nat × Nat} {r : List Piece × Nat}
    (hps : ∀ p ∈ pieces, Piece.Ok orig addB p) (h : deleteStep1 pieces s = some r) :
    ∀ p ∈ r.1, Piece.Ok orig addB p := by
  unfold deleteStep1 at h
  split at h
  · split at h
    · exact absurd h (by simp)
    · rename_i curr hget
      split at h
      · exact absurd h (by simp)
      · rename_i fs hsplit
        cases h
        have hcurr : Piece.Ok orig addB curr := hps curr (mem_of_getElem? hget)
        obtain ⟨hfs1, _⟩ := Piece.split_ok hcurr hsplit
        intro p hp
        rcases List.mem_or_eq_of_mem_set hp with hp | rfl
        · exact hps p hp
        · exact hfs1
  · cases h
    exact hps

theorem deleteStep2_ok {orig addB : List Char} {pieces1 : List Piece}
    {e : Nat × Nat} {r : List Piece × Nat}
    (hps : ∀ p ∈ pieces1, Piece.Ok orig addB p) (h : deleteStep2 pieces1 e = some r) :
    ∀ p ∈ r.1, Piece.Ok orig addB p := by
  unfold deleteStep2 at h
  split at h
  · exact absurd h (by simp)
  · rename_i endp hget
    have hend : Piece.Ok orig addB endp := hps endp (mem_of_getElem? hget)
    split at h
    · split at h
      · exact absurd h (by simp)
      · rename_i fs hsplit
        cases h
        obtain ⟨_, hfs2⟩ := Piece.split_ok hend hsplit
        intro p hp
        rcases List.mem_or_eq_of_mem_set hp with hp | rfl
        · exact hps p hp
        · exact hfs2
    · cases h
      exact hps

theorem insert_Ok {t t2 : PieceTable} {pos : Int} {text : List Char}
    (ht : t.Ok) (h : t.insert pos text = some t2) : t2.Ok := by
  unfold PieceTable.insert at h
  split at h
  · cases h; exact ht
  · rename_i htext
    dsimp only [] at h
    split at h
    · rename_i nps nss nls hnps hnss hnls
      cases h
      intro p hp
      refine insertNewPieces_ok (fun q hq => (ht q hq).mono_add) ?_ hnps p hp
      refine ⟨List.length_pos.mpr htext, ?_⟩
      simp [pieceBuffer]
    · exact absurd h (by simp)

theorem delete_Ok {t t2 : PieceTable} {pos len : Int}
    (ht : t.Ok) (h : t.delete pos len = some t2) : t2.Ok := by
  unfold PieceTable.delete at h
  split at h
  · cases h; exact ht
  · dsimp only [] at h
    split at h
    · exact absurd h (by simp)
    · rename_i step1 hstep1
      split at h
      · exact absurd h (by simp)
      · rename_i step2 hstep2
        split at h
        · rename_i nss nls hnss hnls
          cases h
          intro p hp
          exact deleteStep2_ok (deleteStep1_ok ht hstep1) hstep2 p (mem_pyDelRange hp)
        · exact absurd h (by simp)

theorem Reachable.ok {t : PieceTable} (h : Reachable t) : t.Ok := by
  induction h with
  | init => intro p hp; simp [PieceTable.init] at hp
  | insert pos text _ hstep ih => exact insert_Ok ih hstep
  | delete pos len _ hstep ih => exact delete_Ok ih hstep

theorem pieceText_length {orig addB : List Char} {p : Piece}
    (h : Piece.Ok orig addB p) : (pieceText orig addB p).length = p.length := by
  obtain ⟨_, hb⟩ := h
  simp only [pieceText, sliceBuf, List.length_take, List.length_drop]
  omega

theorem flatten_map_length {orig addB : List Char} {l : List Piece}
    (h : ∀ p ∈ l, Piece.Ok orig addB p) :
    ((l.map (pieceText orig addB)).flatten).length = sumLen l := by
  rw [List.length_flatten, List.map_map, sumLen]
  congr 1
  exact List.map_congr_left fun p hp => pieceText_length (h p hp)

theorem PieceTable.Ok.text_length {t : PieceTable} (h : t.Ok) :
    t.get_text.length = sumLen t.pieces :=
  flatten_map_length h

/-! ## Specification of `_find_piece_at_position` -/

theorem sumLen_cons (p : Piece) (tl : List Piece) :
    sumLen (p :: tl) = p.length + sumLen tl := by
  simp [sumLen]

theorem sumLen_nil : sumLen [] = 0 := rfl

theorem find_out_of_range {ps : List Piece} {pos : Int}
    (h : ¬(0 ≤ pos ∧ pos < (sumLen ps : Int))) :
    find_piece_at_position ps pos = (ps.length, 0) := by
  induction ps generalizing pos with
  | nil => rfl
  | cons p tl ih =>
    have hsum : ((sumLen (p :: tl) : Int)) = (p.length : Int) + (sumLen tl : Int) := by
      rw [sumLen_cons]; push_cast; ring
    have hc : ¬(0 ≤ pos ∧ pos < (p.length : Int)) := by
      rw [hsum] at h; omega
    have h2 : ¬(0 ≤ pos - (p.length : Int) ∧ pos - (p.length : Int) < (sumLen tl : Int)) := by
      rw [hsum] at h; omega
    have hstep : find_piece_at_position (p :: tl) pos =
        ((find_piece_at_position tl (pos - (p.length : Int))).1 + 1,
         (find_piece_at_position tl (pos - (p.length : Int))).2) := by
      simp only [find_piece_at_position]
      rw [if_neg hc]
    rw [hstep, ih h2]
    simp

theorem find_in_range {ps : List Piece} {pos : Int}
    (h0 : 0 ≤ pos) (hlt : pos < (sumLen ps : Int)) :
    ∃ P, ps[(find_piece_at_position ps pos).1]? = some P ∧
      (find_piece_at_position ps pos).2 < P.length ∧
      (sumLen (ps.take (find_piece_at_position ps pos).1) : Int) +
        ((find_piece_at_position ps pos).2 : Int) = pos := by
  induction ps generalizing pos with
  | nil =>
    exfalso
    rw [sumLen_nil] at hlt
    omega
  | cons p tl ih =>
    have hsum : ((sumLen (p :: tl) : Int)) = (p.length : Int) + (sumLen tl : Int) := by
      rw [sumLen_cons]; push_cast; ring
    by_cases hc : 0 ≤ pos ∧ pos < (p.length : Int)
    · have hstep : find_piece_at_position (p :: tl) pos = (0, pos.toNat) := by
        simp only [find_piece_at_position]
        rw [if_pos hc]
      rw [hstep]
      refine ⟨p, ?_, ?_, ?_⟩
      · simp
      · omega
      · rw [List.take_zero, sumLen_nil]
        omega
    · have hp : (p.length : Int) ≤ pos := by omega
      have h0x : 0 ≤ pos - (p.length : Int) := by omega
      have hltx : pos - (p.length : Int) < (sumLen tl : Int) := by omega
      obtain ⟨P, hg, ho, hs⟩ := ih h0x hltx
      have hstep : find_piece_at_position (p :: tl) pos =
          ((find_piece_at_position tl (pos - (p.length : Int))).1 + 1,
           (find_piece_at_position tl (pos - (p.length : Int))).2) := by
        simp only [find_piece_at_position]
        rw [if_neg hc]
      rw [hstep]
      refine ⟨P, ?_, ho, ?_⟩
      · rw [List.getElem?_cons_succ]
        exact hg
      · rw [List.take_succ_cons, sumLen_cons]
        push_cast
        omega

/-! ## Totality of `_update_markers` on dataclass-only overlays -/

theorem update_markers_styles_total {l : List StyleEntry} {pi : Nat} {d : Int}
    (h : ∀ s ∈ l, s.isRange = true) :
    ∃ l2, update_markers_styles l pi d = some l2 := by
  induction l with
  | nil => exact ⟨[], rfl⟩
  | cons s rest ih =>
    obtain ⟨l2, hl2⟩ := ih fun x hx => h x (List.mem_cons_of_mem _ hx)
    cases s with
    | appliedDict pi2 so len a =>
      exact absurd (h _ (List.mem_cons_self _ _)) (by simp [StyleEntry.isRange])
    | range pi2 so len a =>
      refine ⟨(if pi < pi2 then .range pi2 (so + d) len a else .range pi2 so len a) :: l2, ?_⟩
      unfold update_markers_styles StyleEntry.updatePosition
      rw [hl2]

theorem update_markers_lines_total {l : List LineEntry} {pi : Nat} {d : Int}
    (h : ∀ x ∈ l, x.isMarker = true) :
    ∃ l2, update_markers_lines l pi d = some l2 := by
  induction l with
  | nil => exact ⟨[], rfl⟩
  | cons s rest ih =>
    obtain ⟨l2, hl2⟩ := ih fun x hx => h x (List.mem_cons_of_mem _ hx)
    cases s with
    | appliedDict pi2 so ty a =>
      exact absurd (h _ (List.mem_cons_self _ _)) (by simp [LineEntry.isMarker])
    | marker pi2 so ty a =>
      refine ⟨(if pi < pi2 then .marker pi2 (so + d) ty a else .marker pi2 so ty a) :: l2, ?_⟩
      unfold update_markers_lines LineEntry.updatePosition
      rw [hl2]

/-! ## The text effect of `insert` -/

theorem sliceBuf_append {buf ext : List Char} {p : Piece}
    (h : p.start + p.length ≤ buf.length) :
    sliceBuf (buf ++ ext) p = sliceBuf buf p := by
  unfold sliceBuf
  rw [List.drop_append_eq_append_drop, Nat.sub_eq_zero_of_le (by omega : p.start ≤ buf.length),
    List.drop_zero, List.take_append_eq_append_take,
    Nat.sub_eq_zero_of_le (by rw [List.length_drop]; omega), List.take_zero, List.append_nil]

theorem pieceText_append_add {orig addB ext : List Char} {p : Piece}
    (h : Piece.Ok orig addB p) :
    pieceText orig (addB ++ ext) p = pieceText orig addB p := by
  obtain ⟨_, hb⟩ := h
  unfold pieceText
  cases hbt : p.buffer_type with
  | original => rfl
  | add =>
    rw [hbt] at hb
    simp only [pieceBuffer] at hb ⊢
    exact sliceBuf_append hb

theorem map_pieceText_append_add {orig addB ext : List Char} {l : List Piece}
    (h : ∀ p ∈ l, Piece.Ok orig addB p) :
    l.map (pieceText orig (addB ++ ext)) = l.map (pieceText orig addB) :=
  List.map_congr_left fun p hp => pieceText_append_add (h p hp)

theorem pieceText_new_piece (orig addB text : List Char) :
    pieceText orig (addB ++ text)
      { buffer_type := .add, start := addB.length, length := text.length,
        line_start := false } = text := by
  show ((addB ++ text).drop addB.length).take text.length = text
  rw [List.drop_left, List.take_length]

theorem split_slices {buf : List Char} {p : Piece} {o : Nat} {fs : Piece × Piece}
    (h : p.split o = some fs) :
    sliceBuf buf fs.1 = (sliceBuf buf p).take o ∧
    sliceBuf buf fs.2 = (sliceBuf buf p).drop o := by
  obtain ⟨ho, holt, h1, h2⟩ := Piece.split_eq_some h
  constructor
  · rw [h1]
    show (buf.drop p.start).take o = ((buf.drop p.start).take p.length).take o
    rw [List.take_take, Nat.min_eq_left holt.le]
  · rw [h2]
    show (buf.drop (p.start + o)).take (p.length - o) =
      ((buf.drop p.start).take p.length).drop o
    rw [List.drop_take, ← List.drop_drop]

theorem split_pieceText {orig addB : List Char} {p : Piece} {o : Nat}
    {fs : Piece × Piece} (h : p.split o = some fs) :
    pieceText orig addB fs.1 = (pieceText orig addB p).take o ∧
    pieceText orig addB fs.2 = (pieceText orig addB p).drop o := by
  obtain ⟨_, _, h1, h2⟩ := Piece.split_eq_some h
  have hb1 : fs.1.buffer_type = p.buffer_type := by rw [h1]
  have hb2 : fs.2.buffer_type = p.buffer_type := by rw [h2]
  unfold pieceText
  rw [hb1, hb2]
  exact split_slices h

theorem splice_take {A SP B : List Char} {o : Nat} (ho : o ≤ SP.length) :
    (A ++ (SP ++ B)).take (A.length + o) = A ++ SP.take o := by
  rw [List.take_append_eq_append_take, List.take_of_length_le (by omega),
    Nat.add_sub_cancel_left, List.take_append_eq_append_take,
    Nat.sub_eq_zero_of_le ho, List.take_zero, List.append_nil]

theorem splice_drop {A SP B : List Char} {o : Nat} (ho : o ≤ SP.length) :
    (A ++ (SP ++ B)).drop (A.length + o) = SP.drop o ++ B := by
  rw [List.drop_append_eq_append_drop, List.drop_eq_nil_of_le (by omega),
    Nat.add_sub_cancel_left, List.drop_append_eq_append_drop,
    Nat.sub_eq_zero_of_le ho, List.drop_zero, List.nil_append]

theorem pyListInsert_zero {α : Type} (l : List α) (x : α) :
    pyListInsert l 0 x = x :: l := by
  simp [pyListInsert]

theorem pyListInsert_cons {α : Type} (p : α) (l : List α) (k : Nat) (x : α) :
    pyListInsert (p :: l) (k + 1) x = p :: pyListInsert l k x := by
  simp [pyListInsert]

theorem pyListInsert_length {α : Type} (l : List α) (x : α) :
    pyListInsert l l.length x = l ++ [x] := by
  simp [pyListInsert, List.take_length, List.drop_length]

/-- The three-way splice of `PieceTable.insert` in closed form. -/
theorem insert_surgery {ps : List Piece} {i : Nat} (hlt : i < ps.length)
    (a b c : Piece) :
    pyListInsert (pyListInsert (ps.set i a) (i + 1) b) (i + 2) c
      = ps.take i ++ a :: b :: c :: ps.drop (i + 1) := by
  induction ps generalizing i with
  | nil => exact absurd hlt (by simp)
  | cons p tl ih =>
    cases i with
    | zero =>
      rw [List.set_cons_zero, List.take_zero, List.drop_succ_cons, List.drop_zero,
        List.nil_append]
      rw [pyListInsert_cons, pyListInsert_zero, pyListInsert_cons, pyListInsert_cons,
        pyListInsert_zero]
    | succ n =>
      have h2 : n < tl.length := by simpa using hlt
      rw [List.set_cons_succ, pyListInsert_cons, pyListInsert_cons, ih h2,
        List.take_succ_cons, List.drop_succ_cons, List.cons_append]

theorem eq_take_cons_drop {ps : List Piece} {i : Nat} {P : Piece}
    (h : ps[i]? = some P) :
    ps = ps.take i ++ P :: ps.drop (i + 1) := by
  obtain ⟨hlt, hEq⟩ := List.getElem?_eq_some.mp h
  rw [← hEq, List.getElem_cons_drop, List.take_append_drop]

/-- `PieceTable.insert` in one equation, given that every sub-step
succeeded. -/
theorem insert_eq {t : PieceTable} {pos : Int} {text : List Char}
    {i o : Nat} {nps : List Piece} {ss : List StyleEntry} {ls : List LineEntry}
    (htext : ¬text = [])
    (hfp : find_piece_at_position t.pieces pos = (i, o))
    (hnp : insertNewPieces t.pieces (i, o)
      { buffer_type := .add, start := t.add_buffer.length, length := text.length,
        line_start := false } = some nps)
    (hss : update_markers_styles t.styles i (text.length : Int) = some ss)
    (hls : update_markers_lines t.lines i (text.length : Int) = some ls) :
    t.insert pos text =
      some { t with add_buffer := t.add_buffer ++ text, pieces := nps, styles := ss, lines := ls } := by
  unfold PieceTable.insert
  rw [if_neg htext]
  dsimp only []
  rw [hfp]
  dsimp only []
  rw [hnp, hss, hls]

/-- Text effect of `insert` when the position falls strictly inside a
piece: the piece is split and the text spliced between the halves. -/
theorem insert_text_split {t : PieceTable} {pos : Int} {text : List Char}
    {i o : Nat} {P : Piece} {ss : List StyleEntry} {ls : List LineEntry}
    (hOk : t.Ok) (htext : ¬text = [])
    (hfp : find_piece_at_position t.pieces pos = (i, o))
    (hget : t.pieces[i]? = some P)
    (ho : 0 < o) (holt : o < P.length)
    (hsum : (sumLen (t.pieces.take i) : Int) + (o : Int) = pos)
    (hss : update_markers_styles t.styles i (text.length : Int) = some ss)
    (hls : update_markers_lines t.lines i (text.length : Int) = some ls) :
    ∃ t2, t.insert pos text = some t2 ∧
      t2.get_text = t.get_text.take pos.toNat ++ text ++ t.get_text.drop pos.toNat := by
  have hiLt : i < t.pieces.length := (List.getElem?_eq_some.mp hget).1
  have hPOk : Piece.Ok t.original_buffer t.add_buffer P := hOk P (mem_of_getElem? hget)
  have hTakeOk : ∀ p ∈ t.pieces.take i, Piece.Ok t.original_buffer t.add_buffer p :=
    fun p hp => hOk p (List.take_subset _ _ hp)
  have hDropOk : ∀ p ∈ t.pieces.drop (i + 1), Piece.Ok t.original_buffer t.add_buffer p :=
    fun p hp => hOk p (List.drop_subset _ _ hp)
  have hA : (((t.pieces.take i).map (pieceText t.original_buffer t.add_buffer)).flatten).length
      = sumLen (t.pieces.take i) := flatten_map_length hTakeOk
  obtain ⟨fs, hsplit⟩ : ∃ fs, P.split o = some fs := by
    unfold Piece.split
    rw [if_neg (by push_neg; constructor <;> omega)]
    exact ⟨_, rfl⟩
  obtain ⟨hfs1Ok, hfs2Ok⟩ := Piece.split_ok hPOk hsplit
  obtain ⟨hsp1, hsp2⟩ :=
    @split_pieceText t.original_buffer t.add_buffer P o fs hsplit
  have hnp : insertNewPieces t.pieces (i, o)
      { buffer_type := .add, start := t.add_buffer.length, length := text.length,
        line_start := false }
      = some (pyListInsert (pyListInsert (t.pieces.set i fs.1) (i + 1)
          { buffer_type := .add, start := t.add_buffer.length, length := text.length,
            line_start := false }) (i + 2) fs.2) := by
    unfold insertNewPieces
    dsimp only []
    rw [if_pos ho, hget]
    dsimp only []
    rw [hsplit]
  refine ⟨_, insert_eq htext hfp hnp hss hls, ?_⟩
  show ((pyListInsert (pyListInsert (t.pieces.set i fs.1) (i + 1)
      { buffer_type := .add, start := t.add_buffer.length, length := text.length,
        line_start := false }) (i + 2) fs.2).map
      (pieceText t.original_buffer (t.add_buffer ++ text))).flatten
    = t.get_text.take pos.toNat ++ text ++ t.get_text.drop pos.toNat
  rw [insert_surgery hiLt, List.map_append, List.flatten_append, List.map_cons,
    List.map_cons, List.map_cons, List.flatten_cons, List.flatten_cons, List.flatten_cons]
  rw [map_pieceText_append_add hTakeOk, map_pieceText_append_add hDropOk,
    pieceText_new_piece, pieceText_append_add hfs1Ok, pieceText_append_add hfs2Ok,
    hsp1, hsp2]
  have hT : t.get_text
      = ((t.pieces.take i).map (pieceText t.original_buffer t.add_buffer)).flatten ++
        (pieceText t.original_buffer t.add_buffer P ++
          ((t.pieces.drop (i + 1)).map (pieceText t.original_buffer t.add_buffer)).flatten) := by
    unfold PieceTable.get_text
    conv_lhs => rw [eq_take_cons_drop hget]
    rw [List.map_append, List.map_cons, List.flatten_append, List.flatten_cons]
  rw [hT]
  have hoLe : o ≤ (pieceText t.original_buffer t.add_buffer P).length := by
    rw [pieceText_length hPOk]
    omega
  have hpos : pos.toNat
      = (((t.pieces.take i).map (pieceText t.original_buffer t.add_buffer)).flatten).length + o := by
    rw [hA]
    omega
  rw [hpos, splice_take hoLe, splice_drop hoLe]
  simp [List.append_assoc]

/-- Text effect of `insert` when the position falls on a piece boundary
(intra-piece offset 0): the new piece is inserted before the found index
and the text appears at the position given by the preceding pieces. -/
theorem insert_text_boundary {t : PieceTable} {pos : Int} {text : List Char}
    {i : Nat} {ss : List StyleEntry} {ls : List LineEntry}
    (hOk : t.Ok) (htext : ¬text = [])
    (hfp : find_piece_at_position t.pieces pos = (i, 0))
    (hsum : (sumLen (t.pieces.take i) : Int) = pos)
    (hss : update_markers_styles t.styles i (text.length : Int) = some ss)
    (hls : update_markers_lines t.lines i (text.length : Int) = some ls) :
    ∃ t2, t.insert pos text = some t2 ∧
      t2.get_text = t.get_text.take pos.toNat ++ text ++ t.get_text.drop pos.toNat := by
  have hTakeOk : ∀ p ∈ t.pieces.take i, Piece.Ok t.original_buffer t.add_buffer p :=
    fun p hp => hOk p (List.take_subset _ _ hp)
  have hDropOk : ∀ p ∈ t.pieces.drop i, Piece.Ok t.original_buffer t.add_buffer p :=
    fun p hp => hOk p (List.drop_subset _ _ hp)
  have hA : (((t.pieces.take i).map (pieceText t.original_buffer t.add_buffer)).flatten).length
      = sumLen (t.pieces.take i) := flatten_map_length hTakeOk
  have hnp : insertNewPieces t.pieces (i, 0)
      { buffer_type := .add, start := t.add_buffer.length, length := text.length,
        line_start := false }
      = some (pyListInsert t.pieces i
          { buffer_type := .add, start := t.add_buffer.length, length := text.length,
            line_start := false }) := by
    unfold insertNewPieces
    dsimp only []
    rw [if_neg (lt_irrefl 0)]
  refine ⟨_, insert_eq htext hfp hnp hss hls, ?_⟩
  show ((pyListInsert t.pieces i
      { buffer_type := .add, start := t.add_buffer.length, length := text.length,
        line_start := false }).map
      (pieceText t.original_buffer (t.add_buffer ++ text))).flatten
    = t.get_text.take pos.toNat ++ text ++ t.get_text.drop pos.toNat
  unfold pyListInsert
  rw [List.map_append, List.map_cons, List.flatten_append, List.flatten_cons]
  rw [map_pieceText_append_add hTakeOk, map_pieceText_append_add hDropOk,
    pieceText_new_piece]
  have hT : t.get_text
      = ((t.pieces.take i).map (pieceText t.original_buffer t.add_buffer)).flatten ++
        ((t.pieces.drop i).map (pieceText t.original_buffer t.add_buffer)).flatten := by
    unfold PieceTable.get_text
    conv_lhs => rw [← List.take_append_drop i t.pieces]
    rw [List.map_append, List.flatten_append]
  rw [hT]
  have hpos : pos.toNat
      = (((t.pieces.take i).map (pieceText t.original_buffer t.add_buffer)).flatten).length := by
    rw [hA]
    omega
  rw [hpos, List.take_left, List.drop_left]
  simp [List.append_assoc]

/-- Text effect of `insert` when the position search falls off the end of
the piece list (position negative or at/past the document end): the text is
appended at the end. -/
theorem insert_text_append {t : PieceTable} {pos : Int} {text : List Char}
    {ss : List StyleEntry} {ls : List LineEntry}
    (hOk : t.Ok) (htext : ¬text = [])
    (hfp : find_piece_at_position t.pieces pos = (t.pieces.length, 0))
    (hss : update_markers_styles t.styles t.pieces.length (text.length : Int) = some ss)
    (hls : update_markers_lines t.lines t.pieces.length (text.length : Int) = some ls) :
    ∃ t2, t.insert pos text = some t2 ∧ t2.get_text = t.get_text ++ text := by
  have hnp : insertNewPieces t.pieces (t.pieces.length, 0)
      { buffer_type := .add, start := t.add_buffer.length, length := text.length,
        line_start := false }
      = some (t.pieces ++
          [({ buffer_type := .add, start := t.add_buffer.length, length := text.length,
              line_start := false } : Piece)]) := by
    unfold insertNewPieces
    dsimp only []
    rw [if_neg (lt_irrefl 0), pyListInsert_length]
  refine ⟨_, insert_eq htext hfp hnp hss hls, ?_⟩
  show ((t.pieces ++
      [({ buffer_type := .add, start := t.add_buffer.length, length := text.length,
          line_start := false } : Piece)]).map
      (pieceText t.original_buffer (t.add_buffer ++ text))).flatten
    = t.get_text ++ text
  rw [List.map_append, List.flatten_append, map_pieceText_append_add hOk,
    List.map_cons, List.map_nil, List.flatten_cons, pieceText_new_piece]
  unfold PieceTable.get_text
  simp

/-- `PieceTable.insert` never raises: on a well-formed table it always
returns a table, splicing the text at `pos` when `0 ≤ pos ≤ length` and
appending it at the end otherwise. -/
theorem insert_total_spec (t : PieceTable) (pos : Int) (text : List Char)
    (h : t.Wf) :
    ∃ t2, t.insert pos text = some t2 ∧
      ((0 ≤ pos ∧ pos ≤ (t.get_text.length : Int)) →
        t2.get_text = t.get_text.take pos.toNat ++ text ++ t.get_text.drop pos.toNat) ∧
      (¬(0 ≤ pos ∧ pos ≤ (t.get_text.length : Int)) →
        t2.get_text = t.get_text ++ text) := by
  obtain ⟨hOk, hsw, hlw⟩ := h
  have hlen : t.get_text.length = sumLen t.pieces := hOk.text_length
  by_cases htext : text = []
  · subst htext
    refine ⟨t, ?_, ?_, ?_⟩
    · unfold PieceTable.insert
      rw [if_pos rfl]
    · intro _
      rw [List.append_nil, List.take_append_drop]
    · intro _
      rw [List.append_nil]
  · by_cases hin : 0 ≤ pos ∧ pos < (sumLen t.pieces : Int)
    · obtain ⟨P, hget, holt, hsum⟩ := find_in_range hin.1 hin.2
      cases hfp : find_piece_at_position t.pieces pos with
      | mk i o =>
        rw [hfp] at hget holt hsum
        dsimp only [] at hget holt hsum
        obtain ⟨ss, hss⟩ := @update_markers_styles_total t.styles i (text.length : Int) hsw
        obtain ⟨ls, hls⟩ := @update_markers_lines_total t.lines i (text.length : Int) hlw
        by_cases ho : 0 < o
        · obtain ⟨t2, hins, hsplice⟩ :=
            insert_text_split hOk htext hfp hget ho holt hsum hss hls
          exact ⟨t2, hins, fun _ => hsplice, fun hout => absurd ⟨hin.1, by omega⟩ hout⟩
        · have ho0 : o = 0 := by omega
          subst ho0
          have hsum0 : (sumLen (t.pieces.take i) : Int) = pos := by
            push_cast at hsum
            omega
          obtain ⟨t2, hins, hsplice⟩ :=
            insert_text_boundary hOk htext hfp hsum0 hss hls
          exact ⟨t2, hins, fun _ => hsplice, fun hout => absurd ⟨hin.1, by omega⟩ hout⟩
    · have hfp : find_piece_at_position t.pieces pos = (t.pieces.length, 0) :=
        find_out_of_range hin
      obtain ⟨ss, hss⟩ :=
        @update_markers_styles_total t.styles t.pieces.length (text.length : Int) hsw
      obtain ⟨ls, hls⟩ :=
        @update_markers_lines_total t.lines t.pieces.length (text.length : Int) hlw
      obtain ⟨t2, hins, happ⟩ := insert_text_append hOk htext hfp hss hls
      refine ⟨t2, hins, ?_, fun _ => happ⟩
      intro hin2
      have hposNat : pos.toNat = t.get_text.length := by omega
      rw [happ, hposNat, List.take_length, List.drop_length, List.append_nil]

/-! ## Lookup behaviour of the Python dict merge -/

theorem lookup_append (l1 l2 : AttrMap) (k : String) :
    (l1 ++ l2).lookup k = match l1.lookup k with
      | some v => some v
      | none => l2.lookup k := by
  induction l1 with
  | nil => simp
  | cons kv rest ih =>
    obtain ⟨k1, v1⟩ := kv
    by_cases hk : k = k1
    · subst hk
      simp [List.lookup]
    · simp only [List.cons_append, List.lookup, beq_eq_false_iff_ne.mpr hk]
      exact ih

theorem lookup_mapped (a b : AttrMap) (k : String) :
    (a.map fun kv => match b.lookup kv.1 with
      | some v => (kv.1, v)
      | none => kv).lookup k
    = match a.lookup k with
      | none => none
      | some v => match b.lookup k with
        | some w => some w
        | none => some v := by
  induction a with
  | nil => simp
  | cons kv rest ih =>
    obtain ⟨k1, v1⟩ := kv
    by_cases hk : k = k1
    · subst hk
      rw [List.map_cons]
      cases hb : b.lookup k with
      | none => simp [List.lookup, hb]
      | some w => simp [List.lookup, hb]
    · cases hb : b.lookup k1 with
      | none =>
        simp only [List.map_cons, hb]
        simp only [List.lookup, beq_eq_false_iff_ne.mpr hk]
        exact ih
      | some w =>
        simp only [List.map_cons, hb]
        simp only [List.lookup, beq_eq_false_iff_ne.mpr hk]
        exact ih

theorem lookup_filter_absent (a b : AttrMap) (k : String) :
    (b.filter fun kv => (a.lookup kv.1).isNone).lookup k
    = match a.lookup k with
      | some _ => none
      | none => b.lookup k := by
  induction b with
  | nil => cases a.lookup k <;> simp
  | cons kv rest ih =>
    obtain ⟨k1, v1⟩ := kv
    by_cases hk : k = k1
    · subst hk
      cases ha : a.lookup k with
      | none =>
        rw [List.filter_cons_of_pos (by simp [ha])]
        simp [List.lookup, ha]
      | some w =>
        rw [List.filter_cons_of_neg (by simp [ha])]
        rw [ih]
        simp [ha]
    · rw [List.filter_cons]
      by_cases hp : (a.lookup k1).isNone = true
      · rw [if_pos hp]
        simp only [List.lookup, beq_eq_false_iff_ne.mpr hk]
        exact ih
      · rw [if_neg hp]
        rw [ih]
        simp only [List.lookup, beq_eq_false_iff_ne.mpr hk]

/-- Key-by-key reading of `{**a, **b}`: `b` wins on shared keys, keys of
only one side survive. -/
theorem dictMerge_lookup (a b : AttrMap) (k : String) :
    (dictMerge a b).lookup k = match b.lookup k with
      | some v => some v
      | none => a.lookup k := by
  unfold dictMerge
  rw [lookup_append, lookup_mapped, lookup_filter_absent]
  cases ha : a.lookup k <;> cases hb : b.lookup k <;> simp

/-! ## The claims -/

/-- C1: the specification's diff law `apply(a, diff(a, b)).text == b.text`
fails on the code.  For `a = "abc"` and `b = "ac"`, `create_diff` emits the
single operation `delete` at position 1 of length 1, yet applying that list
to a fresh copy of `a` yields the text `"a"`, not `"ac"`:
`PieceTable.delete` keeps only the left half of the split start piece and
its end-piece handling then reads the already-truncated piece, so the tail
`"c"` of the piece is dropped along with the deleted character. -/
theorem diff_apply_does_not_reconstruct :
    create_diff abcT acT = some [{ type := "delete", position := 1, length := some 1 }] ∧
    ((create_diff abcT acT).bind (apply_diff abcT)).map PieceTable.get_text
      = some ("a".toList) ∧
    acT.get_text = "ac".toList := by
  decide

/-- C2: the concurrent non-overlapping insert scenario (text `"abcdef"`,
server insert `"X"` at 1 already applied, client insert `"Y"` at 4 authored
against the base) does not produce `"aXbcdYef"`: `MergeService.apply_change`
finds the base version and computes the server diff, but then hands the
LIST returned by `create_diff` to `_merge_diffs`, whose first statement
indexes it with the string `'position'` and raises `TypeError` before any
rebasing or version bump can happen (`none` = the uncaught exception). -/
theorem merge_scenario_apply_change_raises :
    docC2.findVersion changeC2.source_version = some { version := 2, content := baseT } ∧
    curT.get_text = "aXbcdef".toList ∧
    apply_change docC2 changeC2 = none := by
  decide

/-- C3: `delete(pos, len)` is claimed to fail only when
`pos + len > length`, and to succeed for `pos + len ≤ length` including a
deletion reaching exactly the end of the document.  On the table holding
`"hello"` (length 5), `delete(0, 5)` raises instead:
`_find_piece_at_position(5)` returns `(len(pieces), 0)` and the end-piece
handling evaluates `self.pieces[len(pieces)]`, an IndexError. -/
theorem delete_to_document_end_raises :
    helloT.get_text = "hello".toList ∧
    helloT.delete 0 5 = none := by
  decide

/-- C4 (counterexample): `insert(pos, text)` is claimed to fail with
`InvalidPosition` when `pos > length`, but the code performs no position
validation at all: on the table holding `"ab"` (length 2), `insert(3, "x")`
succeeds and appends, producing `"abx"`. -/
theorem insert_past_end_succeeds :
    abT.get_text.length = 2 ∧
    (abT.insert 3 ("x".toList)).map PieceTable.get_text = some ("abx".toList) := by
  decide

/-- C4 (amended): `insert(pos, text)` never raises.  On a well-formed
table it always returns a table; for every valid `pos ∈ [0, length]` the
resulting text is the old text with `text` spliced in at offset `pos`, and
for `pos` outside `[0, length]` (negative or past the end) the text is
appended at the end of the document instead of the operation failing. -/
theorem insert_never_fails_and_splices (t : PieceTable) (pos : Int)
    (text : List Char) (h : t.Wf) :
    ∃ t2, t.insert pos text = some t2 ∧
      ((0 ≤ pos ∧ pos ≤ (t.get_text.length : Int)) →
        t2.get_text = t.get_text.take pos.toNat ++ text ++ t.get_text.drop pos.toNat) ∧
      (¬(0 ≤ pos ∧ pos ≤ (t.get_text.length : Int)) →
        t2.get_text = t.get_text ++ text) :=
  insert_total_spec t pos text h

/-- C4 (witness): the amended statement evaluated at the `"ab"` table with
`insert(1, "XY")`. -/
theorem insert_never_fails_and_splices_witness :
    ∃ t2, abT.insert 1 ("XY".toList) = some t2 ∧
      ((0 ≤ (1 : Int) ∧ (1 : Int) ≤ (abT.get_text.length : Int)) →
        t2.get_text = abT.get_text.take (1 : Int).toNat ++ "XY".toList ++
          abT.get_text.drop (1 : Int).toNat) ∧
      (¬(0 ≤ (1 : Int) ∧ (1 : Int) ≤ (abT.get_text.length : Int)) →
        t2.get_text = abT.get_text ++ "XY".toList) :=
  insert_never_fails_and_splices abT 1 ("XY".toList) (by decide)

/-- C5: for every piece table reachable from the empty table by successful
inserts and deletes, the sum of the stored piece lengths equals the length
of `get_text`, no stored piece has length 0, and every piece's
`[start, start + length)` slice lies inside the buffer it references. -/
theorem reachable_table_invariants (t : PieceTable) (h : Reachable t) :
    sumLen t.pieces = t.get_text.length ∧
    (∀ p ∈ t.pieces, p.length ≠ 0) ∧
    (∀ p ∈ t.pieces, p.start + p.length ≤ (t.buffer p.buffer_type).length) := by
  have hOk := h.ok
  exact ⟨hOk.text_length.symm, fun p hp => Nat.pos_iff_ne_zero.mp (hOk p hp).1,
    fun p hp => (hOk p hp).2⟩

/-- C5 (witness): the invariants evaluated on the table reached by
inserting `"hi"` into the empty table. -/
theorem reachable_table_invariants_witness :
    sumLen hiT.pieces = hiT.get_text.length ∧
    (∀ p ∈ hiT.pieces, p.length ≠ 0) ∧
    (∀ p ∈ hiT.pieces, p.start + p.length ≤ (hiT.buffer p.buffer_type).length) :=
  reachable_table_invariants hiT
    (Reachable.insert 0 ("hi".toList) Reachable.init (by decide))

/-- C6: when a client style operation overlaps the concurrent server style
change, `_resolve_conflict` merges the two: the result is a single style op
whose position and length come from the server (current) diff and whose
attribute map is the union of both maps with the client's value winning on
every shared key. -/
theorem overlapping_style_merge_spec (d1 d2 : DiffDict) (a1 a2 : AttrMap)
    (l1 : Int) (h1 : d1.type = "style") (h2 : d2.type = "style")
    (hov : changes_overlap d1 d2 = true)
    (ha1 : d1.attributes = some a1) (ha2 : d2.attributes = some a2)
    (hl1 : d1.length = some l1) :
    ∃ m, resolve_conflict d1 d2 = some m ∧
      m.type = "style" ∧ m.position = d1.position ∧ m.length = some l1 ∧
      ∃ ma, m.attributes = some ma ∧
        ∀ k, ma.lookup k = match a2.lookup k with
          | some v => some v
          | none => a1.lookup k := by
  unfold resolve_conflict
  rw [if_pos ⟨h1, h2⟩]
  unfold merge_style_changes
  rw [hl1]
  refine ⟨_, rfl, rfl, rfl, rfl, _, rfl, ?_⟩
  intro k
  rw [ha1, ha2]
  simp only [Option.getD_some]
  exact dictMerge_lookup a1 a2 k

/-- C6 (witness): the style merge evaluated on the spec's scenario —
server `underline := true`, client `bold := false, italic := true`, both on
`[2, 5)`. -/
theorem overlapping_style_merge_spec_witness :
    ∃ m, resolve_conflict serverStyleDiff clientStyleDiff = some m ∧
      m.type = "style" ∧ m.position = serverStyleDiff.position ∧ m.length = some 3 ∧
      ∃ ma, m.attributes = some ma ∧
        ∀ k, ma.lookup k = match ([("bold", AttrVal.boolVal false),
            ("italic", AttrVal.boolVal true)] : AttrMap).lookup k with
          | some v => some v
          | none => ([("underline", AttrVal.boolVal true)] : AttrMap).lookup k :=
  overlapping_style_merge_spec serverStyleDiff clientStyleDiff
    [("underline", .boolVal true)] [("bold", .boolVal false), ("italic", .boolVal true)]
    3 (by decide) (by decide) (by decide) (by decide) (by decide) (by decide)

/-- C7: after `insert(pos, text)` the code does not shift style anchors the
way the specification describes.  Inserting `"X"` at position 0 of
`styledT` hits piece 0 at intra-piece offset 0, so the anchor at
(piece 0, offset 1) should move to offset 2 and the anchor at
(piece 1, offset 0) should stay; instead `_update_markers` (which ignores
the intra-piece offset) leaves the piece-0 anchor at offset 1 and shifts
the piece-1 anchor to offset 1. -/
theorem insert_does_not_shift_same_piece_anchors :
    find_piece_at_position styledT.pieces 0 = (0, 0) ∧
    (styledT.insert 0 ("X".toList)).map PieceTable.styles
      = some [.range 0 1 1 [], .range 1 1 2 []] := by
  decide

/-- C8: the content round-trip `insert(p, t)` then `delete(p, |t|)` does
not restore the text: on the `"ab"` table, `insert(1, "X")` succeeds
(making the inserted text its own piece), and the following `delete(1, 1)`
raises — the deletion's end position falls on the boundary of the next
piece, where `_find_piece_at_position` returns offset 0 and
`Piece.split(0)` raises ValueError. -/
theorem insert_then_delete_raises :
    (abT.insert 1 ("X".toList)).isSome = true ∧
    ((abT.insert 1 ("X".toList)).bind fun t2 => t2.delete 1 1) = none := by
  decide

/-- C9: an operation message whose `sourceVersion` differs from the
document's `current_version` gets a `sync_required{currentVersion}` reply
to the sending subscriber only: nothing is broadcast to the group, no
`Change` is recorded, and the document (content, version, stored versions)
is untouched. -/
theorem stale_version_sync_required (user_id : String) (document : Document)
    (data : OperationData) (h : data.sourceVersion ≠ document.current_version) :
    handle_operation user_id document data =
      some { replies := [.sync_required document.current_version],
             broadcasts := [], recorded := [], document := document } := by
  unfold handle_operation
  rw [if_pos h]

/-- C9 (witness): the stale-version reply evaluated on a version-2 document
receiving a version-1 operation. -/
theorem stale_version_sync_required_witness :
    handle_operation "u1" docW dataStale =
      some { replies := [.sync_required docW.current_version],
             broadcasts := [], recorded := [], document := docW } :=
  stale_version_sync_required "u1" docW dataStale (by decide)

/-- C10: `MergeService.apply_change` on a change whose `source_version` has
no stored `DocumentVersion` returns `False` before touching anything: the
document's content, `current_version` and stored version records are
exactly as before the call. -/
theorem apply_change_unknown_base_noop (document : Document) (change : Change)
    (h : ∀ v ∈ document.versions, v.version ≠ change.source_version) :
    apply_change document change = some (false, document) := by
  unfold apply_change
  have hnone : document.findVersion change.source_version = none := by
    unfold Document.findVersion
    rw [List.filter_eq_nil_iff.mpr (by simpa using h)]
    rfl
  rw [hnone]

/-- C10 (witness): the unknown-base path evaluated on a document whose only
stored version is 2, receiving a change authored at version 1. -/
theorem apply_change_unknown_base_noop_witness :
    apply_change docW changeUnknown = some (false, docW) :=
  apply_change_unknown_base_noop docW changeUnknown (by decide)

end Spec2Proof
